import Mathlib

/-!
# Verification of the parth-dl Instagram downloader core

A shallow embedding of the pure logic of `parth_dl` (files `utils.py`,
`extractors.py`, `core.py`) together with proofs about the claims of the
specification.  Python strings are modelled as `List Char`, machine
integers as `Nat`, time as `ℚ`, and Python exceptions as an explicit
error type.  Fallible Python code is modelled with `Option`/`Except`.
-/

set_option linter.unusedVariables false

namespace ParthDl

/-! ## Positional base-`b` digit strings

Shared machinery for `BaseExtractor._shortcode_to_mediaid` /
`_mediaid_to_shortcode` (base 64) and for decimal rendering / `int()`
parsing of media ids (base 10).  `digitsAux` is fuelled so that it is
structural and hence kernel-reducible. -/

def digitsAux (base : Nat) (toChar : Nat → Char) : Nat → Nat → List Char
  | 0, _ => []
  | fuel + 1, n =>
    if n = 0 then [] else digitsAux base toChar fuel (n / base) ++ [toChar (n % base)]

/-- The base-`base` digit string of `n`, most significant digit first;
`0` renders as the empty list (matching the `while media_id > 0` loop). -/
def digitsOf (base : Nat) (toChar : Nat → Char) (n : Nat) : List Char :=
  digitsAux base toChar n n

/-! ## Shortcode ↔ media-id codec (`BaseExtractor` in `extractors.py`) -/

/-- The 64-symbol alphabet of `_shortcode_to_mediaid` / `_mediaid_to_shortcode`. -/
def alphabetIG : List Char :=
  "ABCDEFGHIJKLMNOPQRSTUVWXYZabcdefghijklmnopqrstuvwxyz0123456789-_".toList

/-- Decimal digit characters, used to model `str(media_id)`. -/
def decChar (d : Nat) : Char := Char.ofNat (48 + d)

/-- `str(n)` for a natural number, modelling Python decimal rendering. -/
def natToDecimal (n : Nat) : List Char :=
  if n = 0 then ['0'] else digitsOf 10 decChar n

/-- `int(s)` on a plain decimal numeral: defined exactly on non-empty
all-digit strings (the only shapes this program ever feeds to `int`),
`none` modelling the `ValueError` raised otherwise. -/
def parseDecimal (s : List Char) : Option Nat :=
  if s ≠ [] ∧ s.all Char.isDigit then
    some (s.foldl (fun a c => a * 10 + (c.toNat - 48)) 0)
  else none

/-- `BaseExtractor._shortcode_to_mediaid`: positional base-64 value of the
shortcode, rendered in decimal.  `none` models the `ValueError` that
`alphabet.index` raises on a character outside the alphabet. -/
def shortcode_to_mediaid (s : List Char) : Option (List Char) :=
  if s.all (fun c => alphabetIG.contains c) then
    some (natToDecimal (s.foldl (fun a c => a * 64 + alphabetIG.indexOf c) 0))
  else none

/-- `BaseExtractor._mediaid_to_shortcode`: strip everything from the first
`_` on (`str(media_id).split('_')[0]`), parse as an integer, then emit
base-64 symbols by repeated divmod while the value is positive. -/
def mediaid_to_shortcode (m : List Char) : Option (List Char) :=
  (parseDecimal (m.takeWhile (fun c => c ≠ '_'))).map
    (digitsOf 64 (fun d => alphabetIG.getD d 'A'))

/-! ## Exceptions (`utils.py`)

The exception taxonomy of `utils.py` plus the two built-in classes the
retry decorator names.  `download`, `rateLimit`, `network` and
`validation` model `DownloadError` and its three subclasses; `connError`
and `timeoutError` model Python's `ConnectionError`/`TimeoutError`;
`other` models any other `Exception`. -/

inductive Exc where
  | download (msg : String)
  | rateLimit (msg : String)
  | network (msg : String)
  | validation (msg : String)
  | connError (msg : String)
  | timeoutError (msg : String)
  | other (msg : String)
deriving DecidableEq, Repr

/-- `str(e)`: the message carried by an exception. -/
def Exc.msg : Exc → String
  | .download m => m
  | .rateLimit m => m
  | .network m => m
  | .validation m => m
  | .connError m => m
  | .timeoutError m => m
  | .other m => m

/-- The classes caught by `except (NetworkError, ConnectionError, TimeoutError)`. -/
def Exc.retryable : Exc → Bool
  | .network _ => true
  | .connError _ => true
  | .timeoutError _ => true
  | _ => false

/-! ## Retry decorator (`retry_on_failure` in `utils.py`)

The wrapped operation is modelled as `f : Nat → Except Exc α`, giving the
outcome of its `k`-th invocation (0-indexed).  `retryAux` mirrors the
`for attempt in range(max_retries)` loop: the fuel counts remaining loop
iterations, and exhausting it reaches the `raise NetworkError(...)` line
after the loop.  Sleeping (`backoff.get_delay` / `time.sleep`) affects no
modelled state and is elided.  The second component counts how many times
`f` was invoked. -/

def retryAux {α : Type} (f : Nat → Except Exc α) (maxRetries : Nat) :
    Nat → Nat → Option String → Except Exc α × Nat
  | _, 0, last =>
    (.error (.network ("Failed after " ++ String.mk (natToDecimal maxRetries)
      ++ " attempts: " ++ (match last with | some m => m | none => "None"))), 0)
  | attempt, fuel + 1, _ =>
    match f attempt with
    | .ok a => (.ok a, 1)
    | .error e =>
      match e with
      | .rateLimit m => (.error (.rateLimit m), 1)
      | e =>
        if e.retryable then
          if attempt < maxRetries - 1 then
            let r := retryAux f maxRetries (attempt + 1) fuel (some e.msg)
            (r.1, r.2 + 1)
          else
            (.error (.network ("Failed after " ++ String.mk (natToDecimal maxRetries)
              ++ " attempts: " ++ e.msg)), 1)
        else
          (.error (.download ("Unexpected error: " ++ e.msg)), 1)

/-- `retry_on_failure(max_retries)` applied to an operation `f`. -/
def retryRun {α : Type} (f : Nat → Except Exc α) (maxRetries : Nat) : Except Exc α × Nat :=
  retryAux f maxRetries 0 maxRetries none

/-- A demo operation: `NetworkError` twice, then success. -/
def retryDemoFlaky : Nat → Except Exc Nat
  | 0 => .error (.network "k0")
  | 1 => .error (.network "k1")
  | _ => .ok 7

/-- A demo operation that is always rate-limited. -/
def retryDemoRateLimited : Nat → Except Exc Nat :=
  fun _ => .error (.rateLimit "Rate limited")

/-- A demo operation that always fails with a `NetworkError`. -/
def retryDemoBroken : Nat → Except Exc Nat :=
  fun k => .error (.network ("k" ++ String.mk (natToDecimal k)))

/-! ## The MediaInfo data model (`extractors.py`)

The normalized extraction result dictionaries.  An `Option` field models a
dictionary key whose value may be absent (`dict.get` returning `None`). -/

/-- A video format dictionary as appended to `result['formats']`. -/
structure Format where
  url : Option String
  width : Option Nat
  height : Option Nat
  format_id : String
  has_audio : Bool
  type : String
deriving DecidableEq, Repr

/-- An image dictionary as appended to `result['images']` (the API/GraphQL
image dictionaries carry no `type` key; the profile-picture ones do). -/
structure ImageFormat where
  url : Option String
  width : Option Nat
  height : Option Nat
  format_id : String
  type : Option String
deriving DecidableEq, Repr

/-- The canonical extraction result record. -/
structure MediaInfo where
  id : String
  title : String
  formats : List Format
  images : List ImageFormat
  thumbnail : Option String
  duration : Option ℚ
  uploader : String
  type : String
deriving DecidableEq, Repr

/-- `result and (result.get('formats') or result.get('images'))`: a
`MediaInfo` is usable for download iff one of the two sequences is
non-empty (a dict with keys is always truthy). -/
def usable (m : MediaInfo) : Bool := ¬ m.formats.isEmpty || ¬ m.images.isEmpty

/-- A demo usable extraction record (one video format). -/
def demoVideoInfo : MediaInfo :=
  { id := "ABC", title := "demo",
    formats := [{ url := some "u", width := some 720, height := some 1280,
                  format_id := "video-0", has_audio := true, type := "video" }],
    images := [], thumbnail := none, duration := none,
    uploader := "alice", type := "video" }

/-! ## Extraction cascades (`MediaExtractor.extract`,
`ProfilePictureExtractor.extract`)

Each strategy of the cascade is modelled by its outcome: `.error e` when
it raised, `.ok none` when it returned `None`, `.ok (some m)` when it
returned the record `m`.  The loop body catches every `Exception` and
continues to the next strategy. -/

def allFailedMsg : String :=
  "All extraction methods failed. Content might be private or unavailable."

/-- The strategy loop of `MediaExtractor.extract` (lines 160-173). -/
def extractCascade : List (Except Exc (Option MediaInfo)) → Except Exc MediaInfo
  | [] => .error (.download allFailedMsg)
  | .ok (some m) :: rs => if usable m then .ok m else extractCascade rs
  | .ok none :: rs => extractCascade rs
  | .error _ :: rs => extractCascade rs

/-- The strategy loop of `ProfilePictureExtractor.extract` (lines 438-447):
any truthy result is returned as is, without the usability check. -/
def profileCascade (username : String) :
    List (Except Exc (Option MediaInfo)) → Except Exc MediaInfo
  | [] => .error (.download ("Could not extract profile picture for @" ++ username))
  | .ok (some m) :: _ => .ok m
  | .ok none :: rs => profileCascade username rs
  | .error _ :: rs => profileCascade username rs

/-- Whether an extraction outcome is a propagating `RateLimitError`. -/
def isRateLimitResult {α : Type} : Except Exc α → Bool
  | .error (.rateLimit _) => true
  | _ => false

/-! ## Format selection (`InstagramDownloader._select_best_format` in `core.py`) -/

/-- Python tuple `<` on the two-component sort keys. -/
def lexLt (a b : Nat × Nat) : Bool := a.1 < b.1 || (a.1 = b.1 && a.2 < b.2)

/-- Sort key for `quality='best'`: `(height*width, height)`, a missing
dimension read as `0` by `f.get(..., 0)`. -/
def bestKey (f : Format) : Nat × Nat :=
  (f.height.getD 0 * f.width.getD 0, f.height.getD 0)

/-- Sort key for `quality='worst'`: `(height, width)` with the sentinel
`999999` for a missing dimension. -/
def worstKey (f : Format) : Nat × Nat :=
  (f.height.getD 999999, f.width.getD 999999)

/-- Python `max(..., key=...)`: keeps the first element among key ties. -/
def pyMaxBy {α : Type} (key : α → Nat × Nat) : α → List α → α
  | acc, [] => acc
  | acc, x :: xs => pyMaxBy key (if lexLt (key acc) (key x) then x else acc) xs

/-- Python `min(..., key=...)`: keeps the first element among key ties. -/
def pyMinBy {α : Type} (key : α → Nat × Nat) : α → List α → α
  | acc, [] => acc
  | acc, x :: xs => pyMinBy key (if lexLt (key x) (key acc) then x else acc) xs

/-- The audio filter: restrict to formats with `has_audio` when any exist. -/
def audioPool (formats : List Format) : List Format :=
  let video_formats := formats.filter (fun f => f.has_audio)
  if video_formats.isEmpty then formats else video_formats

/-- `InstagramDownloader._select_best_format`. -/
def select_best_format (formats : List Format) (quality : String) : Option Format :=
  if formats.isEmpty then none
  else
    match audioPool formats with
    | [] => none
    | f :: rest =>
      if quality = "best" then some (pyMaxBy bestKey f rest)
      else some (pyMinBy worstKey f rest)

/-- The 720p-with-audio format of the specification's selection example. -/
def fmt720 : Format :=
  { url := some "u720", width := some 1280, height := some 720,
    format_id := "video-0", has_audio := true, type := "video" }

/-- The 1080p-with-audio format of the specification's selection example. -/
def fmt1080 : Format :=
  { url := some "u1080", width := some 1920, height := some 1080,
    format_id := "video-1", has_audio := true, type := "video" }

/-- The 480p-without-audio format of the specification's selection example. -/
def fmt480na : Format :=
  { url := some "u480", width := some 854, height := some 480,
    format_id := "video-2", has_audio := false, type := "video" }

/-- A dimensioned no-audio format taller than the `999999` sentinel. -/
def fmtTall : Format :=
  { url := some "tall", width := some 1, height := some 1000000,
    format_id := "video-3", has_audio := false, type := "video" }

/-- A format carrying no dimensions at all. -/
def fmtNoDim : Format :=
  { url := some "nodim", width := none, height := none,
    format_id := "video-4", has_audio := false, type := "video" }

/-! ## Parsers (`_parse_media_item`, `_parse_graphql_media`, profile results)

The JSON inputs are modelled by records carrying exactly the fields the
parsers read; an `Option` field models `dict.get` that may find nothing. -/

/-- One entry of a `video_versions` list. -/
structure VideoVersion where
  url : Option String
  width : Option Nat
  height : Option Nat
deriving DecidableEq, Repr

/-- One entry of an `image_versions2.candidates` list. -/
structure ImageCandidate where
  url : Option String
  width : Option Nat
  height : Option Nat
deriving DecidableEq, Repr

/-- One entry of a `carousel_media` list. -/
structure CarouselItem where
  video_versions : List VideoVersion
  image_candidates : List ImageCandidate
deriving DecidableEq, Repr

/-- An API media item as read by `_parse_media_item`.  `pk` is the
`str()`-rendered form of `item.get('pk', '')`; `caption_text` is
`caption['text']` when `caption` is a dict carrying text, `none` when the
caption is absent, `None`, or not a dict. -/
structure ApiItem where
  pk : Option String
  caption_text : Option String
  video_duration : Option ℚ
  username : Option String
  video_versions : List VideoVersion
  image_candidates : List ImageCandidate
  carousel_media : List CarouselItem
deriving DecidableEq, Repr

/-- `MediaExtractor._parse_media_item`.  `none` models the `ValueError`
raised by `int()` inside `_mediaid_to_shortcode` when `pk` is unusable. -/
def parse_media_item (item : ApiItem) : Option MediaInfo :=
  match mediaid_to_shortcode ((item.pk.getD "").toList) with
  | none => none
  | some idChars =>
    let uploader := item.username.getD "unknown"
    let capTitle := (item.caption_text.getD "").take 100
    let title := if capTitle = "" then "Media by " ++ uploader else capTitle
    let vidFormats : List Format := item.video_versions.enum.map (fun p =>
      { url := p.2.url, width := p.2.width, height := p.2.height,
        format_id := "video-" ++ String.mk (natToDecimal p.1),
        has_audio := true, type := "video" })
    let baseImages : List ImageFormat :=
      if ¬ item.image_candidates.isEmpty ∧ item.video_versions.isEmpty then
        item.image_candidates.enum.map (fun p =>
          { url := p.2.url, width := p.2.width, height := p.2.height,
            format_id := "image-" ++ String.mk (natToDecimal p.1),
            type := none })
      else []
    let carFormats : List Format := (item.carousel_media.enum.map (fun p =>
      if ¬ p.2.video_versions.isEmpty then
        p.2.video_versions.map (fun v =>
          ({ url := v.url, width := v.width, height := v.height,
             format_id := "carousel-video-" ++ String.mk (natToDecimal p.1),
             has_audio := true, type := "video" } : Format))
      else [])).flatten
    let carImages : List ImageFormat := item.carousel_media.enum.filterMap (fun p =>
      if p.2.video_versions.isEmpty then
        match p.2.image_candidates with
        | [] => none
        | c :: _ => some ({
            url := c.url,
            width := c.width,
            height := c.height,
            format_id := "carousel-image-" ++ String.mk (natToDecimal p.1),
            type := none } : ImageFormat)
      else none)
    some {
      id := String.mk idChars,
      title := title,
      formats := vidFormats ++ carFormats,
      images := baseImages ++ carImages,
      thumbnail := match item.image_candidates with | [] => none | c :: _ => c.url,
      duration := item.video_duration,
      uploader := uploader,
      type := if ¬ item.carousel_media.isEmpty then "carousel"
        else if ¬ item.video_versions.isEmpty then "video" else "image" }

/-- A GraphQL media node as read by `_parse_graphql_media`;
`caption_texts` lists the texts of `edge_media_to_caption.edges`. -/
structure GraphqlMedia where
  shortcode : Option String
  video_duration : Option ℚ
  username : Option String
  is_video : Bool
  caption_texts : List String
  video_url : Option String
  display_url : Option String
  dim_width : Option Nat
  dim_height : Option Nat
  thumbnail_src : Option String
deriving DecidableEq, Repr

/-- Python string truthiness: present and non-empty. -/
def truthyStr : Option String → Bool
  | some s => ¬ s.isEmpty
  | none => false

/-- Python `a or b` on two optional strings. -/
def pyOrStr (a b : Option String) : Option String :=
  if truthyStr a then a else b

/-- `MediaExtractor._parse_graphql_media`. -/
def parse_graphql_media (media : GraphqlMedia) : MediaInfo :=
  let uploader := media.username.getD "unknown"
  let cap := match media.caption_texts with | [] => "" | t :: _ => t.take 100
  let title := if cap = "" then "Media by " ++ uploader else cap
  let formats : List Format :=
    if truthyStr media.video_url then
      [{ url := media.video_url, width := media.dim_width, height := media.dim_height,
         format_id := "graphql-video", has_audio := true, type := "video" }]
    else []
  let images : List ImageFormat :=
    if truthyStr media.display_url ∧ ¬ truthyStr media.video_url then
      [{ url := media.display_url, width := media.dim_width, height := media.dim_height,
         format_id := "graphql-image", type := none }]
    else []
  { id := media.shortcode.getD "",
    title := title,
    formats := formats,
    images := images,
    thumbnail := pyOrStr media.display_url media.thumbnail_src,
    duration := media.video_duration,
    uploader := uploader,
    type := if media.is_video then "video" else "image" }

/-- The record built by `ProfilePictureExtractor._extract_from_web` once a
profile-picture URL has been matched (the regex search and the
`&`/`\/` unescaping that produce `picUrl` are not modelled). -/
def profile_web_result (username picUrl : String) : MediaInfo :=
  { id := username,
    title := username ++ "\x27s profile picture",
    uploader := username,
    type := "profile_picture",
    formats := [],
    images := [{ url := some picUrl, width := none, height := none,
                 format_id := "profile-pic-hd", type := some "image" }],
    thumbnail := some picUrl,
    duration := none }

/-- The record built by `ProfilePictureExtractor._extract_from_api` from a
truthy `data.user.profile_pic_url_hd` / `profile_pic_url`. -/
def profile_api_result (username picUrl : String) : MediaInfo :=
  { id := username,
    title := username ++ "\x27s profile picture",
    uploader := username,
    type := "profile_picture",
    formats := [],
    images := [{ url := some picUrl, width := none, height := none,
                 format_id := "profile-pic-hd", type := some "image" }],
    thumbnail := some picUrl,
    duration := none }

/-- A GraphQL node carrying none of the read fields — accepted by
`_parse_graphql_media` without error. -/
def emptyGraphqlNode : GraphqlMedia :=
  { shortcode := none, video_duration := none, username := none, is_video := false,
    caption_texts := [], video_url := none, display_url := none,
    dim_width := none, dim_height := none, thumbnail_src := none }

/-- An API item with `pk = 0` — accepted by `_parse_media_item`. -/
def apiItemPkZero : ApiItem :=
  { pk := some "0", caption_text := none, video_duration := none, username := none,
    video_versions := [], image_candidates := [], carousel_media := [] }

/-- An API item with `pk = 1`. -/
def apiItemPkOne : ApiItem :=
  { pk := some "1", caption_text := none, video_duration := none, username := none,
    video_versions := [], image_candidates := [], carousel_media := [] }

/-- The record `_parse_media_item` builds from `apiItemPkOne`. -/
def apiMediaPkOne : MediaInfo :=
  { id := "B", title := "Media by unknown", formats := [], images := [],
    thumbnail := none, duration := none, uploader := "unknown", type := "image" }

/-- A GraphQL node carrying only a shortcode. -/
def gqlNodeABC : GraphqlMedia :=
  { shortcode := some "ABC", video_duration := none, username := none,
    is_video := false, caption_texts := [], video_url := none, display_url := none,
    dim_width := none, dim_height := none, thumbnail_src := none }

/-! ## URL validation (`validate_url` in `utils.py`) -/

/-- ASCII lowering, modelling `re.IGNORECASE` on the ASCII-only patterns. -/
def lowerList (l : List Char) : List Char := l.map Char.toLower

/-- Substring search (`re.search` on a literal pattern). -/
def containsSub (pat : List Char) : List Char → Bool
  | [] => pat.isEmpty
  | c :: cs => pat.isPrefixOf (c :: cs) || containsSub pat cs

/-- The four string prefixes matched by `^https?://(?:www\.)?instagram\.com/`. -/
def instagramPrefixes : List (List Char) :=
  ["http://instagram.com/", "https://instagram.com/",
   "http://www.instagram.com/", "https://www.instagram.com/"].map String.toList

def matchesInstagramDomain (url : List Char) : Bool :=
  instagramPrefixes.any (fun p => p.isPrefixOf (lowerList url))

/-- The `dangerous_patterns` literals (all already lower-case). -/
def dangerousPatterns : List (List Char) :=
  ["javascript:", "data:", "file:", "<script", "../"].map String.toList

def hasDangerousPattern (url : List Char) : Bool :=
  dangerousPatterns.any (fun p => containsSub p (lowerList url))

/-- `validate_url` (the `isinstance(url, str)` arm is subsumed by typing). -/
def validate_url (url : List Char) : Except Exc Bool :=
  if url.isEmpty then .error (.validation "URL must be a non-empty string")
  else if ¬ matchesInstagramDomain url then
    .error (.validation "URL must be from instagram.com")
  else if hasDangerousPattern url then
    .error (.validation "URL contains potentially dangerous content")
  else .ok true

/-- Written from the claim wording of C8: the URL's scheme-and-host prefix
is an http(s) instagram.com domain (case-insensitively). -/
def specInstagramUrl (url : List Char) : Prop :=
  ∃ rest,
    lowerList url = "http://instagram.com/".toList ++ rest ∨
    lowerList url = "https://instagram.com/".toList ++ rest ∨
    lowerList url = "http://www.instagram.com/".toList ++ rest ∨
    lowerList url = "https://www.instagram.com/".toList ++ rest

/-- Written from the claim wording of C8: the URL contains one of the five
dangerous patterns, in any letter case. -/
def specDangerous (url : List Char) : Prop :=
  ∃ p ∈ dangerousPatterns, p <:+: lowerList url

/-! ## Filename sanitization (`sanitize_filename` in `utils.py`) -/

/-- The character class `[<>:"/\\|?*\x00-\x1f]` removed by the first
substitution. -/
def badChar (c : Char) : Bool :=
  c = '<' || c = '>' || c = ':' || c = '"' || c = '/' || c = '\\' ||
  c = '|' || c = '?' || c = '*' || c.toNat ≤ 0x1f

/-- Python's `\s` on unicode strings (whitespace code points). -/
def pySpace (c : Char) : Bool :=
  c = ' ' || c = '\t' || c = '\n' || c = '\r' ||
  c.toNat = 0x0b || c.toNat = 0x0c ||
  c.toNat = 0x1c || c.toNat = 0x1d || c.toNat = 0x1e || c.toNat = 0x1f ||
  c.toNat = 0x85 || c.toNat = 0xa0 || c.toNat = 0x1680 ||
  (0x2000 ≤ c.toNat && c.toNat ≤ 0x200a) ||
  c.toNat = 0x2028 || c.toNat = 0x2029 || c.toNat = 0x202f ||
  c.toNat = 0x205f || c.toNat = 0x3000

/-- The class `[\s-]` collapsed to `'_'` by the second substitution. -/
def spaceOrDash (c : Char) : Bool := pySpace c || c = '-'

/-- `filename.strip('. ')`. -/
def stripDotSpace (l : List Char) : List Char :=
  ((l.dropWhile (fun c => c = '.' || c = ' ')).reverse.dropWhile
    (fun c => c = '.' || c = ' ')).reverse

/-- `re.sub(r'[\s-]+', '_', ...)`: each maximal run of `p`-characters
becomes one `'_'`.  The flag records whether the previous character was in
a run. -/
def collapseRuns (p : Char → Bool) : List Char → Bool → List Char
  | [], _ => []
  | c :: cs, inRun =>
    if p c then
      (if inRun then collapseRuns p cs true else '_' :: collapseRuns p cs true)
    else c :: collapseRuns p cs false

/-- The pipeline of `sanitize_filename` after the empty-input check:
remove the dangerous characters, strip `'. '` from both ends, collapse
whitespace/dash runs to `'_'`, truncate to `maxLength`. -/
def sanitizeCore (filename : List Char) (maxLength : Nat) : List Char :=
  (collapseRuns spaceOrDash
    (stripDotSpace (filename.filter (fun c => ¬ badChar c))) false).take maxLength

/-- `sanitize_filename`. -/
def sanitize_filename (filename : List Char) (maxLength : Nat := 200) : List Char :=
  if filename.isEmpty then "untitled".toList
  else if (sanitizeCore filename maxLength).isEmpty then "untitled".toList
  else sanitizeCore filename maxLength

/-! ## Username extraction (`extract_username` in `utils.py`)

`re.search(r'instagram\.com/@?([A-Za-z0-9_.]+)/?$', url)`: because the
pattern is anchored at the end of the string, a match strips at most one
final `'/'`, its capture group is then forced to be the maximal trailing
run of username characters (the character just before the group is the
literal's final character, `'/'` or `'@'`, which is not in the class), and
the literal must sit immediately before that run. -/

/-- The class `[A-Za-z0-9_.]`. -/
def usernameChar (c : Char) : Bool := c.isAlphanum || c = '_' || c = '.'

/-- The end-anchored part of the search, after the optional final `'/'`
has been stripped: the capture group is the maximal trailing run of
username characters, and the literal must sit immediately before it. -/
def matchUserPatCore (lit s : List Char) : Option (List Char) :=
  if ((s.reverse.takeWhile usernameChar).reverse).isEmpty then none
  else if lit.isSuffixOf
      (s.take (s.length - ((s.reverse.takeWhile usernameChar).reverse).length)) then
    some ((s.reverse.takeWhile usernameChar).reverse)
  else none

/-- Search for `lit ++ "(group)/?"` anchored at the end of `url`. -/
def matchUserPat (lit : List Char) (url : List Char) : Option (List Char) :=
  matchUserPatCore lit (if url.getLast? = some '/' then url.dropLast else url)

/-- The reserved path roots excluded by `extract_username`. -/
def reservedNames : List (List Char) :=
  ["p", "reel", "reels", "tv", "stories", "explore", "accounts"].map String.toList

/-- `extract_username`: strip the query, try the `/@name` pattern then the
bare `/name` pattern, skipping a match whose name is reserved. -/
def extract_username (url : List Char) : Option (List Char) :=
  let u := url.takeWhile (fun c => c ≠ '?')
  match matchUserPat ("instagram.com/@".toList) u with
  | some n =>
    if reservedNames.contains n then
      match matchUserPat ("instagram.com/".toList) u with
      | some n2 => if reservedNames.contains n2 then none else some n2
      | none => none
    else some n
  | none =>
    match matchUserPat ("instagram.com/".toList) u with
    | some n2 => if reservedNames.contains n2 then none else some n2
    | none => none

/-! ## Rate limiter (`RateLimiter` in `utils.py`)

Wall-clock time is modelled as `ℚ`; `wait_if_needed` takes the current
`requests` list and the value of `time.time()` at entry and returns the
sleep duration passed to `time.sleep` (if any) and the new `requests`
list. -/

/-- Python `min` on a list of floats (raises on `[]`; the `0` default is
unreachable here because `min` is only consulted on a saturated window). -/
def pyMinQ (l : List ℚ) : ℚ :=
  match l with
  | [] => 0
  | x :: xs => xs.foldl min x

/-- `RateLimiter.wait_if_needed`. -/
def wait_if_needed (maxRequests : Nat) (timeWindow : ℚ) (requests : List ℚ)
    (now : ℚ) : Option ℚ × List ℚ :=
  let reqs := requests.filter (fun t => decide (now - t < timeWindow))
  if maxRequests ≤ reqs.length then
    let oldest := pyMinQ reqs
    let wait := timeWindow - (now - oldest)
    if 0 < wait then (some (wait + 1/10), [now])
    else (none, reqs ++ [now])
  else (none, reqs ++ [now])

/-- A sequence of `wait_if_needed` calls at the given times, from the given
starting state; returns the per-call sleep durations and the final state. -/
def runCalls (maxRequests : Nat) (timeWindow : ℚ) :
    List ℚ → List ℚ → List (Option ℚ) × List ℚ
  | state, [] => ([], state)
  | state, t :: ts =>
    let r := wait_if_needed maxRequests timeWindow state t
    let rest := runCalls maxRequests timeWindow r.2 ts
    (r.1 :: rest.1, rest.2)

/-- The thirty demo call times 0, 1, …, 29. -/
def demoCallTimes : List ℚ :=
  [0, 1, 2, 3, 4, 5, 6, 7, 8, 9, 10, 11, 12, 13, 14, 15, 16, 17, 18, 19,
   20, 21, 22, 23, 24, 25, 26, 27, 28, 29]

theorem digitsAux_fuel (base : Nat) (toChar : Nat → Char) (hbase : 2 ≤ base) :
    ∀ f₁ f₂ n, n ≤ f₁ → n ≤ f₂ → digitsAux base toChar f₁ n = digitsAux base toChar f₂ n := by
  intro f₁
  induction f₁ with
  | zero =>
    intro f₂ n h₁ h₂
    interval_cases n
    cases f₂ <;> simp [digitsAux]
  | succ f ih =>
    intro f₂ n h₁ h₂
    cases f₂ with
    | zero =>
      interval_cases n
      simp [digitsAux]
    | succ f' =>
      simp only [digitsAux]
      by_cases hn : n = 0
      · simp [hn]
      · simp only [hn, if_false]
        have hd : n / base < n := Nat.div_lt_self (Nat.pos_of_ne_zero hn) (by omega)
        rw [ih f' (n / base) (by omega) (by omega)]

theorem digitsOf_zero (base : Nat) (toChar : Nat → Char) : digitsOf base toChar 0 = [] := rfl

theorem digitsOf_succ (base : Nat) (toChar : Nat → Char) (hbase : 2 ≤ base)
    {n : Nat} (hn : n ≠ 0) :
    digitsOf base toChar n = digitsOf base toChar (n / base) ++ [toChar (n % base)] := by
  obtain ⟨m, rfl⟩ : ∃ m, n = m + 1 := ⟨n - 1, by omega⟩
  show digitsAux base toChar (m + 1) (m + 1) = _
  simp only [digitsAux, hn, if_false]
  congr 1
  have hlt : (m + 1) / base < m + 1 := Nat.div_lt_self (by omega) (by omega)
  exact digitsAux_fuel base toChar hbase m ((m + 1) / base) ((m + 1) / base)
    (by omega) (le_refl _)

theorem digitsOf_ne_nil (base : Nat) (toChar : Nat → Char) (hbase : 2 ≤ base)
    {n : Nat} (hn : n ≠ 0) : digitsOf base toChar n ≠ [] := by
  rw [digitsOf_succ base toChar hbase hn]
  simp

theorem digitsOf_all (base : Nat) (toChar : Nat → Char) (hbase : 2 ≤ base)
    (P : Char → Prop) (hP : ∀ d, d < base → P (toChar d)) :
    ∀ n, ∀ c ∈ digitsOf base toChar n, P c := by
  intro n
  induction n using Nat.strong_induction_on with
  | _ n ih =>
    by_cases hn : n = 0
    · subst hn; simp [digitsOf_zero]
    · rw [digitsOf_succ base toChar hbase hn]
      intro c hc
      rcases List.mem_append.mp hc with h | h
      · exact ih (n / base) (Nat.div_lt_self (Nat.pos_of_ne_zero hn) (by omega)) c h
      · rcases List.mem_singleton.mp h with rfl
        exact hP _ (Nat.mod_lt _ (by omega))

/-- Reading a digit string back with `foldl (a * base + val c)` inverts
`digitsOf` whenever `val` inverts `toChar` on digit values. -/
theorem foldl_digitsOf (base : Nat) (toChar : Nat → Char) (val : Char → Nat)
    (hbase : 2 ≤ base) (hval : ∀ d, d < base → val (toChar d) = d) :
    ∀ n, (digitsOf base toChar n).foldl (fun a c => a * base + val c) 0 = n := by
  intro n
  induction n using Nat.strong_induction_on with
  | _ n ih =>
    by_cases hn : n = 0
    · subst hn; simp [digitsOf_zero]
    · rw [digitsOf_succ base toChar hbase hn, List.foldl_append]
      rw [ih (n / base) (Nat.div_lt_self (Nat.pos_of_ne_zero hn) (by omega))]
      simp only [List.foldl_cons, List.foldl_nil]
      rw [hval _ (Nat.mod_lt _ (by omega))]
      rw [Nat.mul_comm (n / base) base]
      exact Nat.div_add_mod n base

theorem foldl_base_le (base : Nat) (val : Char → Nat) (hbase : 1 ≤ base) :
    ∀ (l : List Char) (a : Nat), a ≤ l.foldl (fun x c => x * base + val c) a := by
  intro l
  induction l with
  | nil => intro a; simp
  | cons c t ih =>
    intro a
    simp only [List.foldl_cons]
    calc a ≤ a * base + val c := by nlinarith
    _ ≤ _ := ih _

/-- `digitsOf` inverts `foldl` on a digit string whose leading digit is
non-zero: the heart of the claim C1 round trip. -/
theorem digitsOf_foldl (base : Nat) (toChar : Nat → Char) (val : Char → Nat)
    (hbase : 2 ≤ base) (P : Char → Prop)
    (hPval : ∀ c, P c → val c < base ∧ toChar (val c) = c) :
    ∀ (t : List Char) (c : Char), P c → (∀ d ∈ t, P d) → 0 < val c →
      digitsOf base toChar ((c :: t).foldl (fun a ch => a * base + val ch) 0) = c :: t := by
  intro t
  induction t using List.reverseRecOn with
  | nil =>
    intro c hc _ hpos
    simp only [List.foldl_cons, List.foldl_nil, Nat.zero_mul, Nat.zero_add]
    rw [digitsOf_succ base toChar hbase (by omega)]
    have hlt := (hPval c hc).1
    rw [Nat.div_eq_of_lt hlt, Nat.mod_eq_of_lt hlt, digitsOf_zero, (hPval c hc).2]
    simp
  | append_singleton t d ih =>
    intro c hc hall hpos
    have hd : P d := hall d (by simp)
    have hall' : ∀ x ∈ t, P x := fun x hx => hall x (by simp [hx])
    have hfold : (c :: (t ++ [d])).foldl (fun a ch => a * base + val ch) 0
        = ((c :: t).foldl (fun a ch => a * base + val ch) 0) * base + val d := by
      show ((c :: t) ++ [d]).foldl _ 0 = _
      rw [List.foldl_append]
      simp
    have hvpos : 0 < (c :: t).foldl (fun a ch => a * base + val ch) 0 := by
      have h1 : val c ≤ (c :: t).foldl (fun a ch => a * base + val ch) 0 := by
        simp only [List.foldl_cons, Nat.zero_mul, Nat.zero_add]
        exact foldl_base_le base val (by omega) t (val c)
      omega
    rw [hfold]
    set v := (c :: t).foldl (fun a ch => a * base + val ch) 0 with hv
    have hn0 : v * base + val d ≠ 0 := by
      have : base ≤ v * base := by nlinarith
      omega
    rw [digitsOf_succ base toChar hbase hn0]
    have hdlt : val d < base := (hPval d hd).1
    have hdiv : (v * base + val d) / base = v := by
      rw [Nat.add_comm, Nat.mul_comm v base,
        Nat.add_mul_div_left _ _ (show 0 < base by omega), Nat.div_eq_of_lt hdlt,
        Nat.zero_add]
    have hmod : (v * base + val d) % base = val d := by
      rw [Nat.mul_comm v base, Nat.mul_add_mod, Nat.mod_eq_of_lt hdlt]
    rw [hdiv, hmod, (hPval d hd).2, ih c hc hall' hpos]
    simp

theorem takeWhile_append_all {p : Char → Bool} :
    ∀ {a b : List Char}, (∀ c ∈ a, p c = true) → (a ++ b).takeWhile p = a ++ b.takeWhile p := by
  intro a
  induction a with
  | nil => intro b _; simp
  | cons x t ih =>
    intro b h
    have hx : p x = true := h x (by simp)
    simp only [List.cons_append, List.takeWhile_cons, hx, if_true]
    rw [ih (fun c hc => h c (by simp [hc]))]

theorem takeWhile_eq_self_of_all {p : Char → Bool} {a : List Char}
    (h : ∀ c ∈ a, p c = true) : a.takeWhile p = a := by
  have := takeWhile_append_all (b := []) h
  simpa using this

theorem alphabetIG_index_facts :
    ∀ c ∈ alphabetIG, alphabetIG.indexOf c < 64 ∧ alphabetIG.getD (alphabetIG.indexOf c) 'A' = c := by
  decide

theorem alphabetIG_index_pos : ∀ c ∈ alphabetIG, c ≠ 'A' → 0 < alphabetIG.indexOf c := by
  decide

theorem decChar_isDigit : ∀ d, d < 10 → (decChar d).isDigit = true := by decide

theorem decChar_val : ∀ d, d < 10 → (decChar d).toNat - 48 = d := by decide

theorem natToDecimal_all_digit (n : Nat) : ∀ c ∈ natToDecimal n, c.isDigit = true := by
  unfold natToDecimal
  split
  · simp
  · exact digitsOf_all 10 decChar (by omega) (fun c => c.isDigit = true) decChar_isDigit n

theorem parseDecimal_natToDecimal (n : Nat) : parseDecimal (natToDecimal n) = some n := by
  by_cases hn : n = 0
  · subst hn; decide
  · unfold parseDecimal
    have hne : natToDecimal n ≠ [] := by
      unfold natToDecimal
      simp only [hn, if_false]
      exact digitsOf_ne_nil 10 decChar (by omega) hn
    have hall : (natToDecimal n).all Char.isDigit = true :=
      List.all_eq_true.mpr (natToDecimal_all_digit n)
    simp only [hne, hall, ne_eq, not_false_iff, true_and, if_true]
    unfold natToDecimal
    simp only [hn, if_false]
    rw [foldl_digitsOf 10 decChar (fun c => c.toNat - 48) (by omega) decChar_val]

theorem digit_ne_underscore {c : Char} (h : c.isDigit = true) : c ≠ '_' := by
  intro hEq
  subst hEq
  exact absurd h (by decide)

/-- Decoding the decimal rendering of `v` (with or without a `_`-separated
suffix) gives the base-64 digit string of `v`. -/
theorem mediaid_to_shortcode_natToDecimal (v : Nat) :
    mediaid_to_shortcode (natToDecimal v) = some (digitsOf 64 (fun d => alphabetIG.getD d 'A') v) := by
  unfold mediaid_to_shortcode
  rw [takeWhile_eq_self_of_all (fun c hc =>
    decide_eq_true (digit_ne_underscore (natToDecimal_all_digit v c hc)))]
  rw [parseDecimal_natToDecimal]
  rfl

theorem mediaid_to_shortcode_natToDecimal_suffix (v : Nat) (suffix : List Char) :
    mediaid_to_shortcode (natToDecimal v ++ '_' :: suffix)
      = some (digitsOf 64 (fun d => alphabetIG.getD d 'A') v) := by
  unfold mediaid_to_shortcode
  rw [takeWhile_append_all (fun c hc =>
    decide_eq_true (digit_ne_underscore (natToDecimal_all_digit v c hc)))]
  simp only [List.takeWhile_cons]
  norm_num
  exact ⟨v, parseDecimal_natToDecimal v, rfl⟩

/-- Re-encoding the base-64 value of a shortcode recovers the shortcode,
provided the leading symbol is not the zero symbol `'A'`. -/
theorem digitsOf64_value (s : List Char) (halpha : ∀ c ∈ s, c ∈ alphabetIG)
    (hne : s ≠ []) (hheadA : s.head? ≠ some 'A') :
    digitsOf 64 (fun d => alphabetIG.getD d 'A')
      (s.foldl (fun a c => a * 64 + alphabetIG.indexOf c) 0) = s := by
  match s with
  | [] => exact absurd rfl hne
  | c :: t =>
    have hc : c ∈ alphabetIG := halpha c (by simp)
    have hcA : c ≠ 'A' := by
      intro h
      exact hheadA (by simp [h])
    exact digitsOf_foldl 64 (fun d => alphabetIG.getD d 'A') (fun c => alphabetIG.indexOf c)
      (by omega) (fun c => c ∈ alphabetIG)
      (fun c hc => alphabetIG_index_facts c hc)
      t c hc (fun d hd => halpha d (by simp [hd]))
      (alphabetIG_index_pos c hc hcA)

/-- C1 — counterexample.  The claim "for every valid shortcode `s` over the
64-symbol alphabet, `decode(encode(s)) == s`" fails on the code: the
shortcode `"AB"` (the zero symbol `'A'` followed by `'B'`) encodes to the
media-id `"1"`, which decodes back to `"B"`, not `"AB"`: leading `'A'`
symbols are lost because the decode loop stops at value zero. -/
theorem c1_codec_roundtrip_counterexample :
    shortcode_to_mediaid ("AB".toList) = some ("1".toList) ∧
    (shortcode_to_mediaid ("AB".toList)).bind mediaid_to_shortcode = some ("B".toList) ∧
    "B".toList ≠ "AB".toList := by
  decide

/-- C1 (amended): for every non-empty shortcode over the 64-symbol alphabet
`A-Za-z0-9-_` whose first symbol is not `'A'` (the zero digit),
`_mediaid_to_shortcode (_shortcode_to_mediaid s) = s`; moreover decoding
first strips any suffix after `'_'` from the media-id, so appending
`'_'`-separated junk to the media-id does not change the decode result. -/
theorem c1_codec_roundtrip (s suffix : List Char)
    (halpha : ∀ c ∈ s, c ∈ alphabetIG) (hne : s ≠ []) (hheadA : s.head? ≠ some 'A') :
    (shortcode_to_mediaid s).bind mediaid_to_shortcode = some s ∧
    (shortcode_to_mediaid s).bind (fun m => mediaid_to_shortcode (m ++ '_' :: suffix)) = some s := by
  have hall : s.all (fun c => alphabetIG.contains c) = true := by
    rw [List.all_eq_true]
    intro c hc
    exact List.elem_eq_true_of_mem (halpha c hc)
  have henc : shortcode_to_mediaid s
      = some (natToDecimal (s.foldl (fun a c => a * 64 + alphabetIG.indexOf c) 0)) := by
    unfold shortcode_to_mediaid
    rw [hall]
    simp
  rw [henc]
  refine ⟨?_, ?_⟩
  · show mediaid_to_shortcode
        (natToDecimal (s.foldl (fun a c => a * 64 + alphabetIG.indexOf c) 0)) = some s
    rw [mediaid_to_shortcode_natToDecimal, digitsOf64_value s halpha hne hheadA]
  · show mediaid_to_shortcode
        (natToDecimal (s.foldl (fun a c => a * 64 + alphabetIG.indexOf c) 0) ++ '_' :: suffix)
        = some s
    rw [mediaid_to_shortcode_natToDecimal_suffix, digitsOf64_value s halpha hne hheadA]

/-- C1 witness: the amended round trip evaluated at the concrete shortcode
`"Ba"` (media-id `"90"`), with junk suffix `"42"` stripped after `'_'`. -/
theorem c1_codec_roundtrip_witness :
    (shortcode_to_mediaid ("Ba".toList)).bind mediaid_to_shortcode = some ("Ba".toList) ∧
    (shortcode_to_mediaid ("Ba".toList)).bind
      (fun m => mediaid_to_shortcode (m ++ '_' :: "42".toList)) = some ("Ba".toList) :=
  c1_codec_roundtrip ("Ba".toList) ("42".toList) (by decide) (by decide) (by decide)

/-- C4: `retry_on_failure(max_retries=3)`.  (1) An operation failing with
`NetworkError` on its first two invocations and succeeding on the third
succeeds overall after exactly 3 invocations.  (2) An operation raising
`RateLimitError` is invoked exactly once and the error is re-raised as is.
(3) An operation failing with `NetworkError` on every invocation raises a
`NetworkError` wrapping the last failure's message, after 3 invocations. -/
theorem c4_retry_policy {α : Type} (f g h : Nat → Except Exc α) (v : α)
    (m0 m1 mr : String) (mh : Nat → String)
    (hf0 : f 0 = .error (.network m0)) (hf1 : f 1 = .error (.network m1))
    (hf2 : f 2 = .ok v)
    (hg0 : g 0 = .error (.rateLimit mr))
    (hh : ∀ k, k < 3 → h k = .error (.network (mh k))) :
    retryRun f 3 = (.ok v, 3) ∧
    retryRun g 3 = (.error (.rateLimit mr), 1) ∧
    retryRun h 3 = (.error (.network ("Failed after 3 attempts: " ++ mh 2)), 3) := by
  have hnum : String.mk (natToDecimal 3) = "3" := rfl
  refine ⟨?_, ?_, ?_⟩
  · simp [retryRun, retryAux, hf0, hf1, hf2, Exc.retryable, Exc.msg]
  · simp [retryRun, retryAux, hg0]
  · have h0 := hh 0 (by omega)
    have h1 := hh 1 (by omega)
    have h2 := hh 2 (by omega)
    simp [retryRun, retryAux, h0, h1, h2, Exc.retryable, Exc.msg, hnum]

/-- C4 witness: the three retry behaviours at concrete operations. -/
theorem c4_retry_policy_witness :
    retryRun retryDemoFlaky 3 = (.ok 7, 3) ∧
    retryRun retryDemoRateLimited 3 = (.error (.rateLimit "Rate limited"), 1) ∧
    retryRun retryDemoBroken 3
      = (.error (.network ("Failed after 3 attempts: " ++ "k2")), 3) :=
  c4_retry_policy retryDemoFlaky retryDemoRateLimited retryDemoBroken 7
    "k0" "k1" "Rate limited" (fun k => "k" ++ String.mk (natToDecimal k))
    rfl rfl rfl rfl (by intro k hk; interval_cases k <;> rfl)

/-- The media cascade never lets a `RateLimitError` (or any strategy
exception) escape: its only error outcome is the terminal `DownloadError`. -/
theorem extractCascade_not_rateLimit (rs : List (Except Exc (Option MediaInfo))) :
    isRateLimitResult (extractCascade rs) = false := by
  induction rs with
  | nil => rfl
  | cons r rs ih =>
    match r with
    | .ok (some m) =>
      simp only [extractCascade]
      by_cases hm : usable m
      · simp [hm, isRateLimitResult]
      · simp [hm, ih]
    | .ok none => simpa [extractCascade] using ih
    | .error e => simpa [extractCascade] using ih

/-- Same for the profile-picture cascade. -/
theorem profileCascade_not_rateLimit (u : String)
    (rs : List (Except Exc (Option MediaInfo))) :
    isRateLimitResult (profileCascade u rs) = false := by
  induction rs with
  | nil => rfl
  | cons r rs ih =>
    match r with
    | .ok (some m) => rfl
    | .ok none => simpa [profileCascade] using ih
    | .error e => simpa [profileCascade] using ih

/-- C2 — counterexample.  The claim says a `RateLimitError` raised by a
strategy "propagates immediately out of `MediaExtractor.extract` …, never
swallowed by the cascade, and never replaced by a different error kind".
On the code, when all four strategies raise the HTTP-429 `RateLimitError`,
the cascade's `except Exception: continue` swallows each of them and
`extract` raises the terminal `DownloadError` instead. -/
theorem c2_ratelimit_counterexample :
    extractCascade (List.replicate 4
        (.error (.rateLimit "Rate limited by Instagram. Please wait before retrying.")))
      = .error (.download allFailedMsg) ∧
    isRateLimitResult (extractCascade (List.replicate 4
        (.error (.rateLimit "Rate limited by Instagram. Please wait before retrying."))))
      = false := by
  exact ⟨rfl, rfl⟩

/-- C2 (amended): a `RateLimitError` is never retried by
`retry_on_failure` — the operation is invoked exactly once and the error
re-raised unchanged — but the extraction cascades of
`MediaExtractor.extract` and `ProfilePictureExtractor.extract` catch it
like any other strategy exception and move to the next strategy, so no
`RateLimitError` ever propagates out of `extract`; if nothing usable
remains, the terminal `DownloadError` is raised instead. -/
theorem c2_ratelimit_policy {α : Type} (rs : List (Except Exc (Option MediaInfo)))
    (username : String) (f : Nat → Except Exc α) (m : String)
    (hf : f 0 = .error (.rateLimit m)) :
    isRateLimitResult (extractCascade rs) = false ∧
    isRateLimitResult (profileCascade username rs) = false ∧
    retryRun f 3 = (.error (.rateLimit m), 1) := by
  refine ⟨extractCascade_not_rateLimit rs, profileCascade_not_rateLimit username rs, ?_⟩
  simp [retryRun, retryAux, hf]

/-- C2 witness: concrete cascades whose strategies all raise
`RateLimitError`, and a concrete always-rate-limited operation. -/
theorem c2_ratelimit_policy_witness :
    isRateLimitResult (extractCascade [.error (.rateLimit "Rate limited")]) = false ∧
    isRateLimitResult (profileCascade "alice" [.error (.rateLimit "Rate limited")]) = false ∧
    retryRun retryDemoRateLimited 3 = (.error (.rateLimit "Rate limited"), 1) :=
  c2_ratelimit_policy [.error (.rateLimit "Rate limited")] "alice"
    retryDemoRateLimited "Rate limited" rfl

/-- Every `MediaInfo` the media cascade returns passes the usability check. -/
theorem extractCascade_ok_usable (rs : List (Except Exc (Option MediaInfo))) :
    ∀ m, extractCascade rs = .ok m → usable m = true := by
  induction rs with
  | nil => intro m hm; cases hm
  | cons r rs ih =>
    match r with
    | .ok (some m') =>
      intro m hm
      simp only [extractCascade] at hm
      by_cases hu : usable m'
      · rw [if_pos hu] at hm
        cases hm
        exact hu
      · rw [if_neg hu] at hm
        exact ih m hm
    | .ok none => intro m hm; exact ih m (by simpa [extractCascade] using hm)
    | .error e => intro m hm; exact ih m (by simpa [extractCascade] using hm)

/-- If no strategy produces a usable record, the cascade raises the
terminal `DownloadError`. -/
theorem extractCascade_all_fail (rs : List (Except Exc (Option MediaInfo)))
    (hfail : ∀ r ∈ rs, ∀ m, r = .ok (some m) → usable m = false) :
    extractCascade rs = .error (.download allFailedMsg) := by
  induction rs with
  | nil => rfl
  | cons r rs ih =>
    have ih' := ih (fun r hr => hfail r (by simp [hr]))
    match r with
    | .ok (some m') =>
      have hm' : usable m' = false := hfail (.ok (some m')) (by simp) m' rfl
      simp only [extractCascade]
      rw [if_neg (by simp [hm'])]
      exact ih'
    | .ok none => simpa [extractCascade] using ih'
    | .error e => simpa [extractCascade] using ih'

/-- C3: every `MediaInfo` returned by `MediaExtractor.extract` has a
non-empty `formats` or a non-empty `images` sequence; if no strategy in
the cascade produces such a record, `extract` raises the terminal
`DownloadError` saying all extraction methods failed, and in particular
never returns a record with both sequences empty. -/
theorem c3_extract_usable (rs : List (Except Exc (Option MediaInfo))) :
    (∀ m, extractCascade rs = .ok m → (m.formats ≠ [] ∨ m.images ≠ [])) ∧
    ((∀ r ∈ rs, ∀ m, r = .ok (some m) → usable m = false) →
      extractCascade rs = .error (.download allFailedMsg)) := by
  constructor
  · intro m hm
    have := extractCascade_ok_usable rs m hm
    simp only [usable, Bool.or_eq_true, Bool.not_eq_true'] at this
    rcases this with h | h
    · exact Or.inl (by simpa [List.isEmpty_iff] using h)
    · exact Or.inr (by simpa [List.isEmpty_iff] using h)
  · exact extractCascade_all_fail rs

/-- C3 witness: a cascade delivering a usable record, and a cascade with no
usable strategy ending in the terminal error. -/
theorem c3_extract_usable_witness :
    (demoVideoInfo.formats ≠ [] ∨ demoVideoInfo.images ≠ []) ∧
    extractCascade [.ok none, .error (.download "HTTP 500")]
      = .error (.download allFailedMsg) :=
  ⟨(c3_extract_usable [.ok (some demoVideoInfo)]).1 demoVideoInfo (by rfl),
   (c3_extract_usable [.ok none, .error (.download "HTTP 500")]).2 (by
     intro r hr m hm
     rcases List.mem_cons.mp hr with rfl | hr2
     · simp at hm
     · rcases List.mem_cons.mp hr2 with rfl | hr3
       · simp at hm
       · cases hr3)⟩

theorem lexLt_irrefl (a : Nat × Nat) : lexLt a a = false := by
  simp [lexLt]

theorem lexLt_asymm {a b : Nat × Nat} (h : lexLt a b = true) : lexLt b a = false := by
  simp only [lexLt, Bool.or_eq_true, Bool.and_eq_true, decide_eq_true_eq] at h
  simp only [lexLt, Bool.or_eq_false_iff, Bool.and_eq_false_iff,
    decide_eq_false_iff_not]
  omega

theorem lexLt_le_trans {a b c : Nat × Nat} (h1 : lexLt a b = false)
    (h2 : lexLt b c = false) : lexLt a c = false := by
  simp only [lexLt, Bool.or_eq_false_iff, Bool.and_eq_false_iff,
    decide_eq_false_iff_not] at h1 h2 ⊢
  omega

/-- `max(key=...)`: the result is the accumulator or a list element, it is
at least the accumulator, and no element has a strictly greater key. -/
theorem pyMaxBy_spec {α : Type} (key : α → Nat × Nat) (xs : List α) :
    ∀ acc, (pyMaxBy key acc xs = acc ∨ pyMaxBy key acc xs ∈ xs) ∧
      lexLt (key (pyMaxBy key acc xs)) (key acc) = false ∧
      ∀ y ∈ xs, lexLt (key (pyMaxBy key acc xs)) (key y) = false := by
  induction xs with
  | nil =>
    intro acc
    exact ⟨Or.inl rfl, lexLt_irrefl _, by simp⟩
  | cons x t ih =>
    intro acc
    simp only [pyMaxBy]
    by_cases hx : lexLt (key acc) (key x) = true
    · rw [if_pos hx]
      obtain ⟨hmem, hacc, hall⟩ := ih x
      refine ⟨?_, ?_, ?_⟩
      · rcases hmem with h' | h' <;> simp [h']
      · exact lexLt_le_trans hacc (lexLt_asymm hx)
      · intro y hy
        rcases List.mem_cons.mp hy with rfl | hy'
        · exact hacc
        · exact hall y hy'
    · rw [if_neg hx]
      obtain ⟨hmem, hacc, hall⟩ := ih acc
      refine ⟨?_, hacc, ?_⟩
      · rcases hmem with h' | h'
        · exact Or.inl h'
        · exact Or.inr (by simp [h'])
      · intro y hy
        rcases List.mem_cons.mp hy with rfl | hy'
        · exact lexLt_le_trans hacc (Bool.not_eq_true _ ▸ hx)
        · exact hall y hy'

/-- `min(key=...)`: the result is the accumulator or a list element, it is
at most the accumulator, and no element has a strictly smaller key. -/
theorem pyMinBy_spec {α : Type} (key : α → Nat × Nat) (xs : List α) :
    ∀ acc, (pyMinBy key acc xs = acc ∨ pyMinBy key acc xs ∈ xs) ∧
      lexLt (key acc) (key (pyMinBy key acc xs)) = false ∧
      ∀ y ∈ xs, lexLt (key y) (key (pyMinBy key acc xs)) = false := by
  induction xs with
  | nil =>
    intro acc
    exact ⟨Or.inl rfl, lexLt_irrefl _, by simp⟩
  | cons x t ih =>
    intro acc
    simp only [pyMinBy]
    by_cases hx : lexLt (key x) (key acc) = true
    · rw [if_pos hx]
      obtain ⟨hmem, hacc, hall⟩ := ih x
      refine ⟨?_, ?_, ?_⟩
      · rcases hmem with h' | h' <;> simp [h']
      · exact lexLt_le_trans (lexLt_asymm hx) hacc
      · intro y hy
        rcases List.mem_cons.mp hy with rfl | hy'
        · exact hacc
        · exact hall y hy'
    · rw [if_neg hx]
      obtain ⟨hmem, hacc, hall⟩ := ih acc
      refine ⟨?_, hacc, ?_⟩
      · rcases hmem with h' | h'
        · exact Or.inl h'
        · exact Or.inr (by simp [h'])
      · intro y hy
        rcases List.mem_cons.mp hy with rfl | hy'
        · exact lexLt_le_trans (Bool.not_eq_true _ ▸ hx) hacc
        · exact hall y hy'

/-- C5 — counterexample.  The claim says a missing dimension is "treated as
effectively infinite, so a dimensioned entry is preferred as 'worst' over a
dimensionless one".  The sentinel is actually the finite `999999`: given a
dimensioned no-audio entry of height 1000000 and a dimensionless one,
`quality='worst'` selects the dimensionless entry. -/
theorem c5_select_format_counterexample :
    select_best_format [fmtTall, fmtNoDim] "worst" = some fmtNoDim ∧
    fmtNoDim.height = none ∧ fmtNoDim.width = none ∧ fmtTall.height = some 1000000 := by
  exact ⟨rfl, rfl, rfl, rfl⟩

/-- C5 (amended): `_select_best_format` restricts to formats with
`has_audio` whenever at least one exists (else keeps the full list, the
pool being `audioPool`); with `'best'` it returns a pool member maximizing
`(height*width, height)` (missing dimensions read as 0); with `'worst'` it
returns a pool member minimizing `(height, width)` with missing dimensions
read as the finite sentinel `999999` (so a dimensioned entry is preferred
as worst only while its dimensions stay below the sentinel); it returns
none on an empty list.  On the spec's examples: `[720p audio, 1080p audio,
480p no-audio]` gives 1080p for best and 720p for worst, and `[480p
no-audio]` alone gives 480p for both qualities. -/
theorem c5_select_format (formats : List Format) (f : Format) :
    select_best_format [] "best" = none ∧
    select_best_format [] "worst" = none ∧
    (select_best_format formats "best" = some f →
      f ∈ audioPool formats ∧
      ∀ g ∈ audioPool formats, lexLt (bestKey f) (bestKey g) = false) ∧
    (select_best_format formats "worst" = some f →
      f ∈ audioPool formats ∧
      ∀ g ∈ audioPool formats, lexLt (worstKey g) (worstKey f) = false) ∧
    select_best_format [fmt720, fmt1080, fmt480na] "best" = some fmt1080 ∧
    select_best_format [fmt720, fmt1080, fmt480na] "worst" = some fmt720 ∧
    select_best_format [fmt480na] "best" = some fmt480na ∧
    select_best_format [fmt480na] "worst" = some fmt480na := by
  refine ⟨rfl, rfl, ?_, ?_, rfl, rfl, rfl, rfl⟩
  · intro h
    unfold select_best_format at h
    by_cases he : formats.isEmpty
    · rw [if_pos he] at h
      cases h
    · rw [if_neg he] at h
      cases hap : audioPool formats with
      | nil => rw [hap] at h; cases h
      | cons f0 rest =>
        rw [hap] at h
        simp only [reduceIte] at h
        injection h with h
        subst h
        obtain ⟨hmem, hacc, hall⟩ := pyMaxBy_spec bestKey rest f0
        refine ⟨?_, ?_⟩
        · rcases hmem with h' | h' <;> simp [h']
        · intro g hg
          rcases List.mem_cons.mp hg with rfl | hg'
          · exact hacc
          · exact hall g hg'
  · intro h
    unfold select_best_format at h
    by_cases he : formats.isEmpty
    · rw [if_pos he] at h
      cases h
    · rw [if_neg he] at h
      cases hap : audioPool formats with
      | nil => rw [hap] at h; cases h
      | cons f0 rest =>
        rw [hap] at h
        simp only [reduceIte] at h
        injection h with h
        subst h
        obtain ⟨hmem, hacc, hall⟩ := pyMinBy_spec worstKey rest f0
        refine ⟨?_, ?_⟩
        · rcases hmem with h' | h' <;> simp [h']
        · intro g hg
          rcases List.mem_cons.mp hg with rfl | hg'
          · exact hacc
          · exact hall g hg'

/-- C5 witness: the amended theorem applied to the spec's three-format
example, showing the selected 1080p entry optimal within the audio pool. -/
theorem c5_select_format_witness :
    fmt1080 ∈ audioPool [fmt720, fmt1080, fmt480na] ∧
    lexLt (bestKey fmt1080) (bestKey fmt720) = false :=
  ⟨((c5_select_format [fmt720, fmt1080, fmt480na] fmt1080).2.2.1 rfl).1,
   ((c5_select_format [fmt720, fmt1080, fmt480na] fmt1080).2.2.1 rfl).2 fmt720 (by decide)⟩

theorem filter_eq_self_of_all {p : ℚ → Bool} {l : List ℚ}
    (h : ∀ x ∈ l, p x = true) : l.filter p = l :=
  List.filter_eq_self.mpr h

theorem foldl_min_of_le {a : ℚ} : ∀ {l : List ℚ}, (∀ x ∈ l, a ≤ x) → l.foldl min a = a := by
  intro l
  induction l with
  | nil => intro _; rfl
  | cons x t ih =>
    intro h
    simp only [List.foldl_cons]
    rw [min_eq_left (h x (by simp))]
    exact ih (fun y hy => h y (by simp [hy]))

/-- While the window is not saturated and every call stays within the
window of everything already tracked, no call sleeps and the state simply
accumulates the call times. -/
theorem runCalls_no_sleep (maxReq : Nat) (win : ℚ) :
    ∀ (calls state : List ℚ),
      state.length + calls.length ≤ maxReq →
      (∀ x ∈ state ++ calls, ∀ y ∈ calls, y - x < win) →
      runCalls maxReq win state calls = (calls.map (fun _ => none), state ++ calls) := by
  intro calls
  induction calls with
  | nil =>
    intro state _ _
    simp [runCalls]
  | cons c cs ih =>
    intro state hlen hwin
    have hfilter : state.filter (fun t => decide (c - t < win)) = state :=
      filter_eq_self_of_all (fun a ha =>
        decide_eq_true (hwin a (by simp [ha]) c (by simp)))
    have hstep : wait_if_needed maxReq win state c = (none, state ++ [c]) := by
      unfold wait_if_needed
      rw [hfilter]
      rw [if_neg (by simp at hlen; omega)]
    have ih' := ih (state ++ [c])
      (by simp at hlen ⊢; omega)
      (by
        intro x hx y hy
        rcases List.mem_append.mp hx with hx' | hx'
        · rcases List.mem_append.mp hx' with hx'' | hx''
          · exact hwin x (by simp [hx'']) y (by simp [hy])
          · rcases List.mem_singleton.mp hx'' with rfl
            exact hwin x (by simp) y (by simp [hy])
        · exact hwin x (by simp [hx']) y (by simp [hy]))
    simp only [runCalls, hstep, ih']
    simp

/-- C6: with `max_requests=30`, `time_window=60`, thirty monotone calls all
within one window sleep never; the 31st call within the same window sleeps
for `60 - (now - oldest) + 0.1` — until the oldest tracked timestamp falls
outside the window, plus the 0.1 buffer — and the state is reset to just
the new call's own timestamp (cleared before recording itself). -/
theorem c6_rate_limiter (t0 : ℚ) (rest : List ℚ) (t31 : ℚ)
    (hlen : (t0 :: rest).length = 30)
    (hsorted : (t0 :: rest).Sorted (· ≤ ·))
    (hle : ∀ x ∈ t0 :: rest, x ≤ t31)
    (hwin : t31 - t0 < 60) :
    (runCalls 30 60 [] (t0 :: rest)).1 = (t0 :: rest).map (fun _ => none) ∧
    (runCalls 30 60 [] (t0 :: rest)).2 = t0 :: rest ∧
    wait_if_needed 30 60 (t0 :: rest) t31
      = (some ((60 - (t31 - t0)) + 1 / 10), [t31]) := by
  have hmin : ∀ x ∈ t0 :: rest, t0 ≤ x := by
    intro x hx
    rcases List.mem_cons.mp hx with rfl | hx'
    · exact le_refl x
    · exact (List.sorted_cons.mp hsorted).1 x hx'
  have hrun := runCalls_no_sleep 30 60 (t0 :: rest) []
    (by simpa using hlen.le)
    (by
      intro x hx y hy
      simp only [List.nil_append] at hx
      have h1 : y ≤ t31 := hle y hy
      have h2 : t0 ≤ x := hmin x hx
      linarith)
  refine ⟨by rw [hrun], by rw [hrun]; rfl, ?_⟩
  unfold wait_if_needed
  have hfilter : (t0 :: rest).filter (fun t => decide (t31 - t < 60)) = t0 :: rest :=
    filter_eq_self_of_all (fun a ha => by
      have h2 : t0 ≤ a := hmin a ha
      exact decide_eq_true (by linarith))
  rw [hfilter]
  rw [if_pos (by rw [hlen])]
  have hold : pyMinQ (t0 :: rest) = t0 := by
    unfold pyMinQ
    exact foldl_min_of_le (fun x hx => hmin x (by simp [hx]))
  rw [hold]
  rw [if_pos (by linarith)]

/-- C6 witness: call times 0,1,…,29 then a 31st call at time 30, sleeping
`60 - 30 + 0.1 = 30.1` seconds and resetting the tracked set to `[30]`. -/
theorem c6_rate_limiter_witness :
    (runCalls 30 60 [] ((0 : ℚ) :: demoCallTimes.tail)).1
      = ((0 : ℚ) :: demoCallTimes.tail).map (fun _ => none) ∧
    (runCalls 30 60 [] ((0 : ℚ) :: demoCallTimes.tail)).2
      = (0 : ℚ) :: demoCallTimes.tail ∧
    wait_if_needed 30 60 ((0 : ℚ) :: demoCallTimes.tail) 30
      = (some ((60 - ((30 : ℚ) - 0)) + 1 / 10), [30]) :=
  c6_rate_limiter 0 demoCallTimes.tail 30
    (by decide) (by decide) (by decide) (by norm_num)

/-- C7 — counterexample.  The claim says every record the parsers build has
a non-empty `id`, "for every input item the parser accepts".
`_parse_graphql_media` accepts a node without a `shortcode` key and builds
`id = ''`; `_parse_media_item` accepts an item with `pk = 0` and builds
`id = ''` (the decode loop emits nothing for value 0). -/
theorem c7_nonempty_id_counterexample :
    (parse_graphql_media emptyGraphqlNode).id = "" ∧
    (parse_media_item apiItemPkZero).map MediaInfo.id = some "" := by
  exact ⟨rfl, rfl⟩

/-- C7 (amended): the parsers build a non-empty `id` provided the input
carries a usable identifier — for `_parse_media_item`, a `pk` whose
numeral part parses to a positive integer; for `_parse_graphql_media`, a
non-empty `shortcode`; for the profile-picture extractors, the non-empty
username matched from the URL.  A missing/empty `shortcode` or a zero `pk`
is accepted and yields an empty `id`. -/
theorem c7_nonempty_id (item : ApiItem) (mi : MediaInfo) (g : GraphqlMedia)
    (sc : String) (v : Nat) (u pic pic2 : String)
    (hitem : parse_media_item item = some mi)
    (hpk : parseDecimal (((item.pk.getD "").toList).takeWhile (fun c => c ≠ '_')) = some v)
    (hv : 0 < v)
    (hsc : g.shortcode = some sc) (hscne : sc ≠ "")
    (hu : u ≠ "") :
    mi.id ≠ "" ∧
    (parse_graphql_media g).id ≠ "" ∧
    (profile_web_result u pic).id ≠ "" ∧
    (profile_api_result u pic2).id ≠ "" := by
  refine ⟨?_, ?_, hu, hu⟩
  · have hm : mediaid_to_shortcode ((item.pk.getD "").toList)
        = some (digitsOf 64 (fun d => alphabetIG.getD d 'A') v) := by
      unfold mediaid_to_shortcode
      rw [hpk]
      rfl
    unfold parse_media_item at hitem
    rw [hm] at hitem
    have h2 := Option.some.inj hitem
    have hid : mi.id = String.mk (digitsOf 64 (fun d => alphabetIG.getD d 'A') v) := by
      rw [← h2]
    rw [hid]
    intro habs
    have hnil : digitsOf 64 (fun d => alphabetIG.getD d 'A') v = [] := by
      have := congrArg String.toList habs
      simpa using this
    exact digitsOf_ne_nil 64 _ (by omega) (by omega) hnil
  · show (parse_graphql_media g).id ≠ ""
    unfold parse_graphql_media
    simp only [hsc, Option.getD_some]
    exact hscne

set_option maxRecDepth 4000 in
/-- C7 witness: concrete inputs with `pk = 1` (id `"B"`), shortcode
`"ABC"`, and username `"alice"`. -/
theorem c7_nonempty_id_witness :
    apiMediaPkOne.id ≠ "" ∧
    (parse_graphql_media gqlNodeABC).id ≠ "" ∧
    (profile_web_result "alice" "https://x/y.jpg").id ≠ "" ∧
    (profile_api_result "alice" "https://x/z.jpg").id ≠ "" :=
  c7_nonempty_id apiItemPkOne apiMediaPkOne gqlNodeABC "ABC" 1
    "alice" "https://x/y.jpg" "https://x/z.jpg"
    rfl (by decide) (by decide) rfl (by decide) (by decide)

theorem containsSub_iff (pat : List Char) :
    ∀ l, containsSub pat l = true ↔ pat <:+: l := by
  intro l
  induction l with
  | nil =>
    simp only [containsSub, List.isEmpty_iff]
    constructor
    · intro h
      rw [h]
    · intro h
      exact List.sublist_nil.mp h.sublist
  | cons c cs ih =>
    simp only [containsSub, Bool.or_eq_true, ih, List.isPrefixOf_iff_prefix]
    exact (List.infix_cons_iff).symm

theorem hasDangerousPattern_iff (url : List Char) :
    hasDangerousPattern url = true ↔ specDangerous url := by
  unfold hasDangerousPattern specDangerous
  simp only [List.any_eq_true, containsSub_iff]

theorem matchesInstagramDomain_iff (url : List Char) :
    matchesInstagramDomain url = true ↔ specInstagramUrl url := by
  unfold matchesInstagramDomain specInstagramUrl instagramPrefixes
  simp only [List.map_cons, List.map_nil, List.any_cons, List.any_nil,
    Bool.or_eq_true, Bool.or_eq_false_iff, List.isPrefixOf_iff_prefix]
  constructor
  · rintro (h | h | h | h | h)
    · obtain ⟨t, ht⟩ := h
      exact ⟨t, Or.inl ht.symm⟩
    · obtain ⟨t, ht⟩ := h
      exact ⟨t, Or.inr (Or.inl ht.symm)⟩
    · obtain ⟨t, ht⟩ := h
      exact ⟨t, Or.inr (Or.inr (Or.inl ht.symm))⟩
    · obtain ⟨t, ht⟩ := h
      exact ⟨t, Or.inr (Or.inr (Or.inr ht.symm))⟩
    · cases h
  · rintro ⟨t, h | h | h | h⟩
    · exact Or.inl ⟨t, h.symm⟩
    · exact Or.inr (Or.inl ⟨t, h.symm⟩)
    · exact Or.inr (Or.inr (Or.inl ⟨t, h.symm⟩))
    · exact Or.inr (Or.inr (Or.inr (Or.inl ⟨t, h.symm⟩)))

/-- C8: `validate_url` raises `ValidationError` for every URL whose
scheme-and-host prefix is not an http(s) instagram.com domain, and for
every URL containing `javascript:`, `data:`, `file:`, `<script` or `../`
in any letter case; every http(s) instagram.com URL containing none of
those patterns returns `True` without raising. -/
theorem c8_validate_url (u1 u2 u3 : List Char)
    (h1 : ¬ specInstagramUrl u1)
    (h2 : specDangerous u2)
    (h3 : specInstagramUrl u3) (h4 : ¬ specDangerous u3) :
    (∃ m, validate_url u1 = .error (.validation m)) ∧
    (∃ m, validate_url u2 = .error (.validation m)) ∧
    validate_url u3 = .ok true := by
  refine ⟨?_, ?_, ?_⟩
  · unfold validate_url
    by_cases he : u1.isEmpty
    · rw [if_pos he]
      exact ⟨_, rfl⟩
    · rw [if_neg he]
      rw [if_pos (by
        intro hm
        exact h1 ((matchesInstagramDomain_iff u1).mp hm))]
      exact ⟨_, rfl⟩
  · unfold validate_url
    by_cases he : u2.isEmpty
    · rw [if_pos he]
      exact ⟨_, rfl⟩
    · rw [if_neg he]
      by_cases hm : matchesInstagramDomain u2 = true
      · rw [if_neg (by simp [hm])]
        rw [if_pos ((hasDangerousPattern_iff u2).mpr h2)]
        exact ⟨_, rfl⟩
      · rw [if_pos (by simpa using hm)]
        exact ⟨_, rfl⟩
  · unfold validate_url
    have hmp := (matchesInstagramDomain_iff u3).mpr h3
    have hne : u3.isEmpty = false := by
      cases u3 with
      | nil => exact absurd hmp (by decide)
      | cons a t => rfl
    rw [if_neg (by simp [hne])]
    rw [if_neg (by simp [hmp])]
    rw [if_neg (fun hd => h4 ((hasDangerousPattern_iff u3).mp hd))]

/-- C8 witness: a non-Instagram URL, an Instagram URL containing a
dangerous pattern in mixed case, and a clean Instagram media URL. -/
theorem c8_validate_url_witness :
    (∃ m, validate_url ("https://evil.com/".toList) = .error (.validation m)) ∧
    (∃ m, validate_url ("https://www.instagram.com/p/JaVaScRiPt:x/".toList)
      = .error (.validation m)) ∧
    validate_url ("https://www.instagram.com/p/ABC123/".toList) = .ok true :=
  c8_validate_url ("https://evil.com/".toList)
    ("https://www.instagram.com/p/JaVaScRiPt:x/".toList)
    ("https://www.instagram.com/p/ABC123/".toList)
    (by
      rw [← matchesInstagramDomain_iff]
      decide)
    (by
      rw [← hasDangerousPattern_iff]
      decide)
    (by
      rw [← matchesInstagramDomain_iff]
      decide)
    (by
      rw [← hasDangerousPattern_iff]
      decide)

theorem trailingRun_eq (p : Char → Bool) (a' : List Char) (d : Char) (b : List Char)
    (hb : ∀ c ∈ b, p c = true) (hd : p d = false) :
    (((a' ++ [d]) ++ b).reverse.takeWhile p).reverse = b := by
  rw [List.reverse_append, List.reverse_append]
  rw [takeWhile_append_all (fun c hc => hb c (List.mem_reverse.mp hc))]
  simp only [List.reverse_singleton, List.singleton_append, List.takeWhile_cons, hd]
  simp

/-- Evaluating the anchored pattern search on a URL of the shape
`base ++ name ++ "/"` where `base` ends in `'/'` and `name` is a non-empty
run of username characters. -/
theorem matchUserPat_eval (lit base name a' : List Char)
    (hbase : base = a' ++ ['/'])
    (hname : ∀ c ∈ name, usernameChar c = true) (hne : name ≠ []) :
    matchUserPat lit (base ++ name ++ ['/'])
      = if lit.isSuffixOf base then some name else none := by
  subst hbase
  unfold matchUserPat
  rw [List.getLast?_concat]
  rw [if_pos rfl]
  rw [List.dropLast_concat]
  unfold matchUserPatCore
  rw [trailingRun_eq usernameChar a' '/' name hname (by decide)]
  rw [show ((a' ++ ['/']) ++ name).length - name.length = (a' ++ ['/']).length by
    simp [List.length_append]
    omega]
  rw [List.take_left]
  rw [if_neg (by simp [hne])]

theorem usernameChar_ne_qmark {c : Char} (h : usernameChar c = true) : c ≠ '?' := by
  intro hEq
  subst hEq
  exact absurd h (by decide)

/-- C9 — counterexample.  The claim says `extract_username` returns none
for "every URL whose root path segment is a reserved word".  The URL
`https://www.instagram.com/p/instagram.com/alice/` has reserved root
segment `p`, yet the end-anchored `re.search` matches the second
`instagram.com/` occurrence inside the path and returns `alice`. -/
theorem c9_extract_username_counterexample :
    extract_username ("https://www.instagram.com/p/instagram.com/alice/".toList)
      = some ("alice".toList) := by
  decide

/-- C9 (amended): for every URL of the exact form `instagram.com/<name>/`
(scheme-and-www prefix, nothing after the name) where `<name>` is a
non-empty string over `[A-Za-z0-9_.]` not in the reserved set,
`extract_username` returns `<name>`; for such URLs whose single path
segment is a reserved word it returns none.  The reserved-root rule does
not extend to URLs whose path embeds a further `instagram.com/`
occurrence. -/
theorem c9_extract_username (name r : List Char)
    (hne : name ≠ []) (hchars : ∀ c ∈ name, usernameChar c = true)
    (hres : reservedNames.contains name = false)
    (hr : r ∈ reservedNames) :
    extract_username ("https://www.instagram.com/".toList ++ name ++ ['/'])
      = some name ∧
    extract_username ("https://www.instagram.com/".toList ++ r ++ ['/']) = none := by
  constructor
  · have hbase0 : ∀ c ∈ "https://www.instagram.com/".toList,
        (fun c => decide (c ≠ '?')) c = true := by decide
    have hq : (("https://www.instagram.com/".toList ++ name) ++ ['/']).takeWhile
          (fun c => decide (c ≠ '?'))
        = ("https://www.instagram.com/".toList ++ name) ++ ['/'] := by
      apply takeWhile_eq_self_of_all
      intro c hc
      rcases List.mem_append.mp hc with hc' | hc'
      · rcases List.mem_append.mp hc' with hc'' | hc''
        · exact hbase0 c hc''
        · exact decide_eq_true (usernameChar_ne_qmark (hchars c hc''))
      · rcases List.mem_singleton.mp hc' with rfl
        decide
    simp only [extract_username]
    rw [hq]
    rw [matchUserPat_eval ("instagram.com/@".toList) ("https://www.instagram.com/".toList)
      name ("https://www.instagram.com".toList) (by decide) hchars hne]
    rw [matchUserPat_eval ("instagram.com/".toList) ("https://www.instagram.com/".toList)
      name ("https://www.instagram.com".toList) (by decide) hchars hne]
    rw [if_neg (by decide), if_pos (by decide)]
    simp only [hres]
    rfl
  · simp only [reservedNames, List.map_cons, List.map_nil, List.mem_cons,
      List.not_mem_nil, or_false] at hr
    rcases hr with rfl | rfl | rfl | rfl | rfl | rfl | rfl <;> decide

/-- C9 witness: the username `alice` round-trips; the reserved word `p`
yields none. -/
theorem c9_extract_username_witness :
    extract_username ("https://www.instagram.com/".toList ++ "alice".toList ++ ['/'])
      = some ("alice".toList) ∧
    extract_username ("https://www.instagram.com/".toList ++ "p".toList ++ ['/'])
      = none :=
  c9_extract_username ("alice".toList) ("p".toList)
    (by decide) (by decide) (by decide) (by decide)

theorem collapseRuns_chars (p : Char → Bool) :
    ∀ (l : List Char) (b : Bool) (c : Char), c ∈ collapseRuns p l b →
      c = '_' ∨ (c ∈ l ∧ p c = false) := by
  intro l
  induction l with
  | nil => intro b c hc; cases hc
  | cons x t ih =>
    intro b c hc
    simp only [collapseRuns] at hc
    by_cases hx : p x = true
    · rw [if_pos hx] at hc
      cases b with
      | true =>
        rw [if_pos rfl] at hc
        rcases ih true c hc with h | ⟨h1, h2⟩
        · exact Or.inl h
        · exact Or.inr ⟨by simp [h1], h2⟩
      | false =>
        rw [if_neg (by simp)] at hc
        rcases List.mem_cons.mp hc with rfl | hc'
        · exact Or.inl rfl
        · rcases ih true c hc' with h | ⟨h1, h2⟩
          · exact Or.inl h
          · exact Or.inr ⟨by simp [h1], h2⟩
    · rw [if_neg hx] at hc
      rcases List.mem_cons.mp hc with rfl | hc'
      · exact Or.inr ⟨by simp, by simpa using hx⟩
      · rcases ih false c hc' with h | ⟨h1, h2⟩
        · exact Or.inl h
        · exact Or.inr ⟨by simp [h1], h2⟩

theorem stripDotSpace_subset {l : List Char} : ∀ c ∈ stripDotSpace l, c ∈ l := by
  intro c hc
  unfold stripDotSpace at hc
  rw [List.mem_reverse] at hc
  have hc2 := (List.dropWhile_sublist _).subset hc
  rw [List.mem_reverse] at hc2
  exact (List.dropWhile_sublist _).subset hc2

/-- C10 — counterexample.  The claim bounds the result length by
`max_length`; but empty and fully-stripped inputs fall back to the 8-char
`"untitled"`, which overruns any `max_length < 8`: with `max_length = 0`
the input `"x"` truncates to `""` and yields `"untitled"` of length 8. -/
theorem c10_sanitize_counterexample :
    sanitize_filename ("x".toList) 0 = "untitled".toList ∧
    (sanitize_filename ("x".toList) 0).length = 8 ∧ ¬ (8 ≤ 0) := by
  exact ⟨rfl, rfl, by omega⟩

/-- C10 (amended): for every input, `sanitize_filename` returns a
non-empty string of length at most `max (max_length) 8` (at most
`max_length` whenever `max_length ≥ 8`, so in particular at the default
200) containing no path separator, no character from `<>:"|?*`, and no
control character `\x00`-`\x1f`; empty or fully-stripped inputs yield
`"untitled"` (whose 8 characters may exceed a cap smaller than 8). -/
theorem c10_sanitize_filename (s : List Char) (m : Nat) :
    sanitize_filename s m ≠ [] ∧
    (sanitize_filename s m).length ≤ max m 8 ∧
    (∀ c ∈ sanitize_filename s m, badChar c = false) ∧
    ((s = [] ∨ stripDotSpace (s.filter (fun c => ¬ badChar c)) = []) →
      sanitize_filename s m = "untitled".toList) := by
  have huntitled : ∀ c ∈ "untitled".toList, badChar c = false := by decide
  unfold sanitize_filename
  by_cases hs : s.isEmpty
  · rw [if_pos hs]
    exact ⟨by decide, by simp, huntitled, fun _ => rfl⟩
  · rw [if_neg hs]
    by_cases h4 : (sanitizeCore s m).isEmpty
    · rw [if_pos h4]
      exact ⟨by decide, by simp, huntitled, fun _ => rfl⟩
    · rw [if_neg h4]
      refine ⟨by simpa [List.isEmpty_iff] using h4, ?_, ?_, ?_⟩
      · calc (sanitizeCore s m).length ≤ m := List.length_take_le _ _
        _ ≤ max m 8 := le_max_left _ _
      · intro c hc
        have hc3 := List.take_subset _ _ hc
        rcases collapseRuns_chars spaceOrDash _ false c hc3 with rfl | ⟨h1, _⟩
        · decide
        · have hc1 := stripDotSpace_subset c h1
          have := List.mem_filter.mp hc1
          simpa using this.2
      · intro h
        rcases h with rfl | h
        · exact absurd rfl hs
        · exfalso
          apply (by simpa [List.isEmpty_iff] using h4 : sanitizeCore s m ≠ [])
          unfold sanitizeCore
          rw [h]
          simp [collapseRuns]

/-- C10 witness: the amended bounds at the empty input and the default
`max_length = 200`. -/
theorem c10_sanitize_filename_witness :
    sanitize_filename [] 200 = "untitled".toList ∧
    (sanitize_filename [] 200).length ≤ max 200 8 ∧
    sanitize_filename [] 200 ≠ [] :=
  ⟨(c10_sanitize_filename [] 200).2.2.2 (Or.inl rfl),
   (c10_sanitize_filename [] 200).2.1,
   (c10_sanitize_filename [] 200).1⟩

end ParthDl
